import Mathlib

/-!
Shallow embedding of
`pkg/chains/formats/slsa/v2alpha2/internal/resolved_dependencies/resolved_dependencies.go`
(Tekton Chains).

The Go file aggregates artifact references into a `resolvedDependencies`
list and removes duplicates.  Digest sets (`map[string]string` in Go) are
modelled as association lists `List (String × String)`; the identity key
that the Go code obtains by `json.Marshal` of a `{URI, Digest}` value is
modelled as the pair of the URI and the digest entries ordered by key,
mirroring the stable, sorted-key serialization that `encoding/json`
performs on Go maps.  The external collaborator functions
(`material.FromStepImages` etc.) are out of scope of the file and are
passed in as already-computed results, matching their Go signatures
(`([]ProvenanceMaterial, error)` becomes `List ProvenanceMaterial × Option String`).
-/

/-- Name constants from the Go file (lines 32–43). -/
def pipelineConfigName : String := "pipeline"

def taskConfigName : String := "task"

def pipelineTaskConfigName : String := "pipelineTask"

def inputResultName : String := "inputs/result"

def pipelineResourceName : String := "pipelineResource"

/-- `common.DigestSet` (`map[string]string`): association list from
algorithm name to digest string.  A Go map has no duplicate keys; lists
with duplicate keys represent no Go value. -/
abbrev DigestSet := List (String × String)

/-- `common.ProvenanceMaterial`. -/
structure ProvenanceMaterial where
  URI : String
  Digest : DigestSet
deriving DecidableEq

/-- `v1.ResourceDescriptor`, restricted to the fields the Go file touches.
Go zero values: empty string / nil map. -/
structure ResourceDescriptor where
  Name : String := ""
  URI : String := ""
  Digest : DigestSet := []
deriving DecidableEq

/-- Ordering of digest entries by algorithm name, as `encoding/json`
sorts map keys when marshalling. -/
def digestLe (p q : String × String) : Prop := p.1 ≤ q.1

instance : DecidableRel digestLe := fun p q => inferInstanceAs (Decidable (p.1 ≤ q.1))

instance : IsTotal (String × String) digestLe := ⟨fun p q => le_total p.1 q.1⟩

instance : IsTrans (String × String) digestLe := ⟨fun _ _ _ h h' => le_trans h h'⟩

/-- Stable-key serialization of a digest map: entries sorted by
algorithm name. -/
def sortDigest (d : DigestSet) : DigestSet := List.insertionSort digestLe d

/-- The duplicate-identity key the Go code computes at lines 153–157: a
copy of the descriptor holding only URI and Digest, canonically
serialized (`json.Marshal` sorts map keys, so the key determines and is
determined by the URI together with the digest map). -/
def identityKey (rd : ResourceDescriptor) : String × DigestSet :=
  (rd.URI, sortDigest rd.Digest)

/-- The protected-name test at line 167:
`resolvedDependency.Name == taskConfigName || resolvedDependency.Name == pipelineConfigName`. -/
def ProtectedName (rd : ResourceDescriptor) : Prop :=
  rd.Name = taskConfigName ∨ rd.Name = pipelineConfigName

instance : DecidablePred ProtectedName := fun rd =>
  inferInstanceAs (Decidable (rd.Name = taskConfigName ∨ rd.Name = pipelineConfigName))

/-- The loop of `removeDuplicateResolvedDependencies` (lines 150–173),
with the `seen` map threaded explicitly.  An entry whose key was already
seen is skipped unless its name is protected; every emitted entry marks
its key seen. -/
def removeDuplicateLoop (seen : List (String × DigestSet)) :
    List ResourceDescriptor → List ResourceDescriptor
  | [] => []
  | rd :: rest =>
    if identityKey rd ∈ seen ∧ ¬ ProtectedName rd then
      removeDuplicateLoop seen rest
    else
      rd :: removeDuplicateLoop (identityKey rd :: seen) rest

/-- `removeDuplicateResolvedDependencies` (lines 145–175).
`json.Marshal` never fails on string/`map[string]string` fields, so the
error branch at lines 158–160 is unreachable and the function is total. -/
def removeDuplicateResolvedDependencies (resolvedDependencies : List ResourceDescriptor) :
    List ResourceDescriptor :=
  removeDuplicateLoop [] resolvedDependencies

/-- The final contents of the `seen` map after the loop runs over a list. -/
def seenAfter (seen : List (String × DigestSet)) :
    List ResourceDescriptor → List (String × DigestSet)
  | [] => seen
  | rd :: rest =>
    if identityKey rd ∈ seen ∧ ¬ ProtectedName rd then
      seenAfter seen rest
    else
      seenAfter (identityKey rd :: seen) rest

/-- `convertMaterialsToResolvedDependencies` (lines 129–141):
1:1 mapping, `Name` set only when the category string is non-empty. -/
def convertMaterialsToResolvedDependencies (mats : List ProvenanceMaterial) (name : String) :
    List ResourceDescriptor :=
  mats.map fun mat =>
    { Name := if 0 < name.length then name else "", URI := mat.URI, Digest := mat.Digest }

/-! ### Lemmas about the deduplication loop -/

theorem seenAfter_subset (l : List ResourceDescriptor) :
    ∀ seen, seen ⊆ seenAfter seen l := by
  induction l with
  | nil => intro seen; exact fun _ h => h
  | cons rd rest ih =>
    intro seen
    unfold seenAfter
    by_cases h : identityKey rd ∈ seen ∧ ¬ ProtectedName rd
    · rw [if_pos h]; exact ih seen
    · rw [if_neg h]
      exact fun k hk => ih _ (List.mem_cons_of_mem _ hk)

theorem mem_seenAfter_of_mem (l : List ResourceDescriptor) :
    ∀ seen, ∀ rd ∈ l, identityKey rd ∈ seenAfter seen l := by
  induction l with
  | nil => intro _ rd h; cases h
  | cons hd rest ih =>
    intro seen rd hmem
    unfold seenAfter
    rcases List.mem_cons.mp hmem with heq | htail
    · subst heq
      by_cases h : identityKey rd ∈ seen ∧ ¬ ProtectedName rd
      · rw [if_pos h]; exact seenAfter_subset rest seen h.1
      · rw [if_neg h]
        exact seenAfter_subset rest _ (List.mem_cons_self _ _)
    · by_cases h : identityKey hd ∈ seen ∧ ¬ ProtectedName hd
      · rw [if_pos h]; exact ih seen rd htail
      · rw [if_neg h]; exact ih _ rd htail

theorem mem_seenAfter (l : List ResourceDescriptor) :
    ∀ seen k, k ∈ seenAfter seen l → k ∈ seen ∨ ∃ rd ∈ l, identityKey rd = k := by
  induction l with
  | nil => intro seen k h; exact Or.inl h
  | cons hd rest ih =>
    intro seen k h
    unfold seenAfter at h
    by_cases hc : identityKey hd ∈ seen ∧ ¬ ProtectedName hd
    · rw [if_pos hc] at h
      rcases ih seen k h with h' | ⟨rd, hrd, hk⟩
      · exact Or.inl h'
      · exact Or.inr ⟨rd, List.mem_cons_of_mem _ hrd, hk⟩
    · rw [if_neg hc] at h
      rcases ih _ k h with h' | ⟨rd, hrd, hk⟩
      · rcases List.mem_cons.mp h' with h'' | h''
        · exact Or.inr ⟨hd, List.mem_cons_self _ _, h''.symm⟩
        · exact Or.inl h''
      · exact Or.inr ⟨rd, List.mem_cons_of_mem _ hrd, hk⟩

theorem removeDuplicateLoop_append (xs ys : List ResourceDescriptor) :
    ∀ seen, removeDuplicateLoop seen (xs ++ ys) =
      removeDuplicateLoop seen xs ++ removeDuplicateLoop (seenAfter seen xs) ys := by
  induction xs with
  | nil => intro seen; rfl
  | cons hd rest ih =>
    intro seen
    by_cases h : identityKey hd ∈ seen ∧ ¬ ProtectedName hd
    · simp only [List.cons_append, removeDuplicateLoop, seenAfter, if_pos h, List.append_eq]
      exact ih seen
    · simp only [List.cons_append, removeDuplicateLoop, seenAfter, if_neg h, List.append_eq]
      rw [ih]

theorem protected_of_seen_mem (l : List ResourceDescriptor) :
    ∀ seen, ∀ rd ∈ removeDuplicateLoop seen l,
      identityKey rd ∈ seen → ProtectedName rd := by
  induction l with
  | nil => intro _ rd h; cases h
  | cons hd rest ih =>
    intro seen rd hmem hseen
    unfold removeDuplicateLoop at hmem
    by_cases h : identityKey hd ∈ seen ∧ ¬ ProtectedName hd
    · rw [if_pos h] at hmem
      exact ih seen rd hmem hseen
    · rw [if_neg h] at hmem
      rcases List.mem_cons.mp hmem with heq | htail
      · subst heq
        rcases not_and_or.mp h with h' | h'
        · exact absurd hseen h'
        · exact not_not.mp h'
      · exact ih _ rd htail (List.mem_cons_of_mem _ hseen)

theorem removeDuplicateLoop_pairwise (l : List ResourceDescriptor) :
    ∀ seen, (removeDuplicateLoop seen l).Pairwise
      (fun a b => identityKey a = identityKey b → ProtectedName b) := by
  induction l with
  | nil => intro _; simp [removeDuplicateLoop]
  | cons hd rest ih =>
    intro seen
    unfold removeDuplicateLoop
    by_cases h : identityKey hd ∈ seen ∧ ¬ ProtectedName hd
    · rw [if_pos h]; exact ih seen
    · rw [if_neg h]
      refine List.Pairwise.cons ?_ (ih _)
      intro b hb hkey
      exact protected_of_seen_mem rest _ b hb (hkey ▸ List.mem_cons_self _ _)

theorem removeDuplicateLoop_sublist (l : List ResourceDescriptor) :
    ∀ seen, List.Sublist (removeDuplicateLoop seen l) l := by
  induction l with
  | nil => intro _; simp [removeDuplicateLoop]
  | cons hd rest ih =>
    intro seen
    unfold removeDuplicateLoop
    by_cases h : identityKey hd ∈ seen ∧ ¬ ProtectedName hd
    · rw [if_pos h]
      exact (ih seen).trans (List.sublist_cons_self _ _)
    · rw [if_neg h]
      exact List.Sublist.cons₂ hd (ih _)

theorem removeDuplicateLoop_cons (seen : List (String × DigestSet))
    (rd : ResourceDescriptor) (rest : List ResourceDescriptor) :
    removeDuplicateLoop seen (rd :: rest) =
      if identityKey rd ∈ seen ∧ ¬ ProtectedName rd then
        removeDuplicateLoop seen rest
      else
        rd :: removeDuplicateLoop (identityKey rd :: seen) rest := rfl

theorem seenAfter_cons (seen : List (String × DigestSet))
    (rd : ResourceDescriptor) (rest : List ResourceDescriptor) :
    seenAfter seen (rd :: rest) =
      if identityKey rd ∈ seen ∧ ¬ ProtectedName rd then
        seenAfter seen rest
      else
        seenAfter (identityKey rd :: seen) rest := rfl

theorem removeDuplicateLoop_skip (seen : List (String × DigestSet))
    (b : ResourceDescriptor) (l : List ResourceDescriptor)
    (hseen : identityKey b ∈ seen) (hb : ¬ ProtectedName b) :
    removeDuplicateLoop seen (b :: l) = removeDuplicateLoop seen l ∧
      seenAfter seen (b :: l) = seenAfter seen l := by
  constructor
  · rw [removeDuplicateLoop_cons, if_pos ⟨hseen, hb⟩]
  · rw [seenAfter_cons, if_pos ⟨hseen, hb⟩]

theorem protected_mem_removeDuplicateLoop (l : List ResourceDescriptor) :
    ∀ seen, ∀ rd ∈ l, ProtectedName rd → rd ∈ removeDuplicateLoop seen l := by
  induction l with
  | nil => intro _ rd h; cases h
  | cons hd rest ih =>
    intro seen rd hmem hprot
    unfold removeDuplicateLoop
    by_cases h : identityKey hd ∈ seen ∧ ¬ ProtectedName hd
    · rw [if_pos h]
      rcases List.mem_cons.mp hmem with heq | htail
      · subst heq; exact absurd hprot h.2
      · exact ih seen rd htail hprot
    · rw [if_neg h]
      rcases List.mem_cons.mp hmem with heq | htail
      · subst heq; exact List.mem_cons_self _ _
      · exact List.mem_cons_of_mem _ (ih _ rd htail hprot)

theorem removeDuplicateLoop_eq_self (l : List ResourceDescriptor) :
    ∀ seen, (∀ rd ∈ l, identityKey rd ∈ seen → ProtectedName rd) →
      l.Pairwise (fun a b => identityKey a = identityKey b → ProtectedName b) →
      removeDuplicateLoop seen l = l := by
  induction l with
  | nil => intro _ _ _; rfl
  | cons hd rest ih =>
    intro seen hseen hpw
    unfold removeDuplicateLoop
    rw [if_neg ?_]
    · rw [ih (identityKey hd :: seen) ?_ (List.Pairwise.sublist (List.sublist_cons_self _ _) hpw)]
      intro rd hrd hkey
      rcases List.mem_cons.mp hkey with heq | htail
      · exact (List.pairwise_cons.mp hpw).1 rd hrd heq.symm
      · exact hseen rd (List.mem_cons_of_mem _ hrd) htail
    · intro h
      exact h.2 (hseen hd (List.mem_cons_self _ _) h.1)

/-! ### The two resolvers

`TaskRun` and `PipelineRun` call external collaborators
(`material.FromStepImages`, `material.FromSidecarImages`,
`material.FromTaskParamsAndResults`, `material.FromTaskResources`,
`material.FromPipelineParamsAndResults`) whose code lives outside this
file; their already-computed results are passed in as arguments.  A Go
pair `([]T, error)` is `List T × Option String`; `error == nil` is
`Option.none`. -/

/-- `status.Provenance.RefSource` when present (the Go code reads only
URI and Digest from it). -/
structure RefSource where
  URI : String
  Digest : DigestSet
deriving DecidableEq

/-- Lines 51–58: the top-level task config descriptor, named `"task"`,
emitted only when provenance and its ref source are present. -/
def taskTopDescriptor : Option RefSource → List ResourceDescriptor
  | some p => [{ Name := taskConfigName, URI := p.URI, Digest := p.Digest }]
  | none => []

/-- Lines 99–106: the top-level pipeline config descriptor, named
`"pipeline"`. -/
def pipelineTopDescriptor : Option RefSource → List ResourceDescriptor
  | some p => [{ Name := pipelineConfigName, URI := p.URI, Digest := p.Digest }]
  | none => []

/-- `TaskRun` (lines 46–90).  `refSource` is
`tro.Status.Provenance.RefSource` (`none` when either pointer is nil);
`stepResult` / `sidecarResult` are the collaborator results of
`material.FromStepImages(tro.Status.Steps)` /
`material.FromSidecarImages(tro.Status.Sidecars)`;
`paramResultMaterials` / `resourceMaterials` are the (error-free)
results of `material.FromTaskParamsAndResults` /
`material.FromTaskResources`.  On a collaborator error the Go code
returns `nil, err` at once. -/
def TaskRun (refSource : Option RefSource)
    (stepResult sidecarResult : List ProvenanceMaterial × Option String)
    (paramResultMaterials resourceMaterials : List ProvenanceMaterial) :
    List ResourceDescriptor × Option String :=
  let rds := taskTopDescriptor refSource
  match stepResult.2 with
  | some e => ([], some e)
  | none =>
    match sidecarResult.2 with
    | some e => ([], some e)
    | none =>
      let mats := stepResult.1 ++ sidecarResult.1
      let rds := rds ++ convertMaterialsToResolvedDependencies mats ""
      let rds := rds ++ convertMaterialsToResolvedDependencies paramResultMaterials inputResultName
      let rds := rds ++ convertMaterialsToResolvedDependencies resourceMaterials pipelineResourceName
      (removeDuplicateResolvedDependencies rds, none)

/-- `pSpec.Tasks` and `pSpec.Finally`, each pipeline task identified by
its name (the loop reads only `t.Name`). -/
structure PipelineSpec where
  Tasks : List String
  Finally : List String

/-- The slice of a sub-execution's (child task run's) status that
`fromPipelineTask` reads: completion time, provenance ref source, and
the collaborator results for its step and sidecar images. -/
structure SubTaskRunStatus where
  completionTime : Option Nat
  refSource : Option RefSource
  stepResult : List ProvenanceMaterial × Option String
  sidecarResult : List ProvenanceMaterial × Option String

/-- Lines 192–199: the per-stage remote task config descriptor, named
`"pipelineTask"`. -/
def pipelineTaskDescriptor : Option RefSource → List ResourceDescriptor
  | some p => [{ Name := pipelineTaskConfigName, URI := p.URI, Digest := p.Digest }]
  | none => []

/-- The loop of `fromPipelineTask` (lines 184–219) over the declared
pipeline task names.  `getTaskRun` is `pro.GetTaskRunFromTask`; a stage
with no task run, or one without a completion time, is skipped.  An
extraction error aborts the whole call with `nil, err`, discarding
already-accumulated descriptors. -/
def fromPipelineTaskLoop (getTaskRun : String → Option SubTaskRunStatus) :
    List String → List ResourceDescriptor × Option String
  | [] => ([], none)
  | t :: rest =>
    match getTaskRun t with
    | none => fromPipelineTaskLoop getTaskRun rest
    | some tr =>
      match tr.completionTime with
      | none => fromPipelineTaskLoop getTaskRun rest
      | some _ =>
        match tr.stepResult.2 with
        | some e => ([], some e)
        | none =>
          match tr.sidecarResult.2 with
          | some e => ([], some e)
          | none =>
            let mats := tr.stepResult.1 ++ tr.sidecarResult.1
            let here := pipelineTaskDescriptor tr.refSource ++
              convertMaterialsToResolvedDependencies mats ""
            match fromPipelineTaskLoop getTaskRun rest with
            | (_, some e) => ([], some e)
            | (restRds, none) => (here ++ restRds, none)

/-- `fromPipelineTask` (lines 179–222): when the status carries no
pipeline spec the loop body never runs and the empty list is returned. -/
def fromPipelineTask (getTaskRun : String → Option SubTaskRunStatus)
    (pSpec : Option PipelineSpec) : List ResourceDescriptor × Option String :=
  match pSpec with
  | none => ([], none)
  | some s => fromPipelineTaskLoop getTaskRun (s.Tasks ++ s.Finally)

/-- `PipelineRun` (lines 93–126).  `paramResultMaterials` is the
(error-free) result of `material.FromPipelineParamsAndResults`. -/
def PipelineRun (refSource : Option RefSource)
    (getTaskRun : String → Option SubTaskRunStatus)
    (pSpec : Option PipelineSpec)
    (paramResultMaterials : List ProvenanceMaterial) :
    List ResourceDescriptor × Option String :=
  let rds := pipelineTopDescriptor refSource
  match fromPipelineTask getTaskRun pSpec with
  | (_, some e) => ([], some e)
  | (taskRds, none) =>
    let rds := rds ++ taskRds
    let rds := rds ++ convertMaterialsToResolvedDependencies paramResultMaterials inputResultName
    (removeDuplicateResolvedDependencies rds, none)

/-- The error that lines 204–215 surface for one completed stage: the
step-image extraction error when present, otherwise the sidecar-image
extraction error. -/
def extractionError (tr : SubTaskRunStatus) : Option String :=
  match tr.stepResult.2 with
  | some e => some e
  | none => tr.sidecarResult.2

/-! ### Error propagation lemmas -/

theorem fromPipelineTaskLoop_error_nil (getTaskRun : String → Option SubTaskRunStatus)
    (names : List String) (e : String) :
    (fromPipelineTaskLoop getTaskRun names).2 = some e →
      fromPipelineTaskLoop getTaskRun names = ([], some e) := by
  induction names with
  | nil => intro h; simp [fromPipelineTaskLoop] at h
  | cons t rest ih =>
    intro h
    simp only [fromPipelineTaskLoop] at h ⊢
    cases hg : getTaskRun t with
    | none => simp only [hg] at h ⊢; exact ih h
    | some tr =>
      simp only [hg] at h ⊢
      cases hct : tr.completionTime with
      | none => simp only [hct] at h ⊢; exact ih h
      | some ct =>
        simp only [hct] at h ⊢
        cases hse : tr.stepResult.2 with
        | some e1 => simp only [hse] at h ⊢; simp at h; rw [h]
        | none =>
          simp only [hse] at h ⊢
          cases hsc : tr.sidecarResult.2 with
          | some e1 => simp only [hsc] at h ⊢; simp at h; rw [h]
          | none =>
            simp only [hsc] at h ⊢
            rcases hrec : fromPipelineTaskLoop getTaskRun rest with ⟨restRds, restErr⟩
            simp only [hrec] at h ⊢
            cases restErr with
            | some e1 => simp at h; rw [h]
            | none => simp at h

theorem fromPipelineTaskLoop_error_source (getTaskRun : String → Option SubTaskRunStatus)
    (names : List String) (e : String) :
    (fromPipelineTaskLoop getTaskRun names).2 = some e →
      ∃ t ∈ names, ∃ tr, getTaskRun t = some tr ∧ tr.completionTime.isSome ∧
        extractionError tr = some e := by
  induction names with
  | nil => intro h; simp [fromPipelineTaskLoop] at h
  | cons t rest ih =>
    intro h
    simp only [fromPipelineTaskLoop] at h
    cases hg : getTaskRun t with
    | none =>
      simp only [hg] at h
      rcases ih h with ⟨t', ht', tr, htr⟩
      exact ⟨t', List.mem_cons_of_mem _ ht', tr, htr⟩
    | some tr =>
      simp only [hg] at h
      cases hct : tr.completionTime with
      | none =>
        simp only [hct] at h
        rcases ih h with ⟨t', ht', tr', htr'⟩
        exact ⟨t', List.mem_cons_of_mem _ ht', tr', htr'⟩
      | some ct =>
        simp only [hct] at h
        cases hse : tr.stepResult.2 with
        | some e1 =>
          simp only [hse] at h
          simp at h
          exact ⟨t, List.mem_cons_self _ _, tr, hg, by simp [hct],
            by simp [extractionError, hse, h]⟩
        | none =>
          simp only [hse] at h
          cases hsc : tr.sidecarResult.2 with
          | some e1 =>
            simp only [hsc] at h
            simp at h
            exact ⟨t, List.mem_cons_self _ _, tr, hg, by simp [hct],
              by simp [extractionError, hse, hsc, h]⟩
          | none =>
            simp only [hsc] at h
            rcases hrec : fromPipelineTaskLoop getTaskRun rest with ⟨restRds, restErr⟩
            simp only [hrec] at h
            cases restErr with
            | some e1 =>
              simp at h
              rcases ih (by rw [hrec, h]) with ⟨t', ht', tr', htr'⟩
              exact ⟨t', List.mem_cons_of_mem _ ht', tr', htr'⟩
            | none => simp at h

theorem fromPipelineTaskLoop_error_of_failure (getTaskRun : String → Option SubTaskRunStatus)
    (names : List String) (t : String) (tr : SubTaskRunStatus) :
    t ∈ names → getTaskRun t = some tr → tr.completionTime.isSome →
      (extractionError tr).isSome → (fromPipelineTaskLoop getTaskRun names).2.isSome := by
  induction names with
  | nil => intro h; cases h
  | cons t' rest ih =>
    intro hmem hg hct herr
    simp only [fromPipelineTaskLoop]
    cases hg' : getTaskRun t' with
    | none =>
      simp only []
      rcases List.mem_cons.mp hmem with heq | htail
      · subst heq; rw [hg'] at hg; cases hg
      · exact ih htail hg hct herr
    | some tr' =>
      simp only []
      cases hct' : tr'.completionTime with
      | none =>
        rcases List.mem_cons.mp hmem with heq | htail
        · subst heq
          rw [hg'] at hg
          injection hg with hg
          subst hg
          rw [hct'] at hct
          simp at hct
        · exact ih htail hg hct herr
      | some ct =>
        cases hse : tr'.stepResult.2 with
        | some e1 => simp
        | none =>
          cases hsc : tr'.sidecarResult.2 with
          | some e1 => simp
          | none =>
            rcases hrec : fromPipelineTaskLoop getTaskRun rest with ⟨restRds, restErr⟩
            cases restErr with
            | some e1 => simp
            | none =>
              rcases List.mem_cons.mp hmem with heq | htail
              · subst heq
                rw [hg'] at hg
                injection hg with hg
                subst hg
                rw [extractionError, hse, hsc] at herr
                simp at herr
              · have := ih htail hg hct herr
                rw [hrec] at this
                simp at this

/-! ### Claim theorems -/

/-- Claim C1: the deduplicated output never contains two entries with the
same (URI, Digest) identity unless at least one of the two is named
`"task"` or `"pipeline"`; and the `Name` field plays no role in the
duplicate-identity key. -/
theorem dedup_no_unprotected_duplicates :
    (∀ rds : List ResourceDescriptor,
      (removeDuplicateResolvedDependencies rds).Pairwise
        (fun a b => identityKey a = identityKey b → ProtectedName a ∨ ProtectedName b)) ∧
    (∀ (rd : ResourceDescriptor) (n : String),
      identityKey { rd with Name := n } = identityKey rd) := by
  constructor
  · intro rds
    exact (removeDuplicateLoop_pairwise rds []).imp (fun h hk => Or.inr (h hk))
  · intro rd n; rfl

/-- Claim C2: every entry named `"task"` or `"pipeline"` in the input
appears in the deduplicated output, no matter how many content-identical
entries precede it. -/
theorem protected_entries_retained (rds : List ResourceDescriptor)
    (rd : ResourceDescriptor) (hmem : rd ∈ rds) (hprot : ProtectedName rd) :
    rd ∈ removeDuplicateResolvedDependencies rds :=
  protected_mem_removeDuplicateLoop rds [] rd hmem hprot

/-- Witness for C2: the first occurrence of the identity is unprotected
and the later `"task"`-named duplicate is still in the output. -/
theorem protected_entries_retained_witness :
    ({ Name := "task", URI := "a", Digest := [("sha256", "x")] } : ResourceDescriptor) ∈
      removeDuplicateResolvedDependencies
        [{ Name := "", URI := "a", Digest := [("sha256", "x")] },
         { Name := "task", URI := "a", Digest := [("sha256", "x")] }] :=
  protected_entries_retained _ _ (by decide) (Or.inl rfl)

/-- Claim C3: a later entry whose (URI, Digest) identity already occurred
and whose name is not protected is suppressed — removing it from the
input does not change the output — and on the concrete example
`[{Name:"task",URI:"a",Digest:{sha256:"x"}}, {URI:"a",Digest:{sha256:"x"}}]`
only the first entry is returned. -/
theorem later_unprotected_duplicate_suppressed
    (l1 l2 l3 : List ResourceDescriptor) (a b : ResourceDescriptor)
    (hkey : identityKey a = identityKey b) (hb : ¬ ProtectedName b) :
    removeDuplicateResolvedDependencies (l1 ++ (a :: l2) ++ (b :: l3)) =
      removeDuplicateResolvedDependencies (l1 ++ (a :: l2) ++ l3) ∧
    removeDuplicateResolvedDependencies
      [{ Name := "task", URI := "a", Digest := [("sha256", "x")] },
       { Name := "", URI := "a", Digest := [("sha256", "x")] }] =
      [{ Name := "task", URI := "a", Digest := [("sha256", "x")] }] := by
  constructor
  · unfold removeDuplicateResolvedDependencies
    have hmem : identityKey b ∈ seenAfter [] (l1 ++ (a :: l2)) := by
      rw [← hkey]
      exact mem_seenAfter_of_mem _ [] a (by simp)
    rw [removeDuplicateLoop_append (l1 ++ (a :: l2)) (b :: l3) [],
      (removeDuplicateLoop_skip _ b l3 hmem hb).1,
      ← removeDuplicateLoop_append (l1 ++ (a :: l2)) l3 []]
  · decide

/-- Witness for C3 at the concrete input of the claim: the second,
unnamed duplicate of the protected entry is removed. -/
theorem later_unprotected_duplicate_suppressed_witness :
    removeDuplicateResolvedDependencies
      [{ Name := "task", URI := "a", Digest := [("sha256", "x")] },
       { Name := "", URI := "a", Digest := [("sha256", "x")] }] =
      [{ Name := "task", URI := "a", Digest := [("sha256", "x")] }] :=
  (later_unprotected_duplicate_suppressed []
    [] [] { Name := "task", URI := "a", Digest := [("sha256", "x")] }
    { Name := "", URI := "a", Digest := [("sha256", "x")] } rfl (by decide)).1

/-- Claim C4: the output is a subsequence of the input (entries removed,
never reordered), and the first occurrence of each identity survives. -/
theorem dedup_order_preserving_first_occurrence
    (rds l1 l2 : List ResourceDescriptor) (a : ResourceDescriptor)
    (hsplit : rds = l1 ++ a :: l2)
    (hfirst : ∀ x ∈ l1, identityKey x ≠ identityKey a) :
    List.Sublist (removeDuplicateResolvedDependencies rds) rds ∧
      a ∈ removeDuplicateResolvedDependencies rds := by
  subst hsplit
  refine ⟨removeDuplicateLoop_sublist _ [], ?_⟩
  unfold removeDuplicateResolvedDependencies
  rw [removeDuplicateLoop_append]
  have hnot : identityKey a ∉ seenAfter [] l1 := by
    intro h
    rcases mem_seenAfter l1 [] _ h with h' | ⟨x, hx, hk⟩
    · simp at h'
    · exact hfirst x hx hk
  refine List.mem_append_right _ ?_
  rw [removeDuplicateLoop_cons, if_neg (fun hc => hnot hc.1)]
  exact List.mem_cons_self _ _

/-- Witness for C4 on a concrete input: `[p, q, p]` with `q` the first
occurrence of its identity. -/
theorem dedup_order_preserving_first_occurrence_witness :
    List.Sublist
        (removeDuplicateResolvedDependencies
          [{ Name := "", URI := "a", Digest := [("sha256", "x")] },
           { Name := "", URI := "b", Digest := [("sha256", "y")] },
           { Name := "", URI := "a", Digest := [("sha256", "x")] }])
        [{ Name := "", URI := "a", Digest := [("sha256", "x")] },
         { Name := "", URI := "b", Digest := [("sha256", "y")] },
         { Name := "", URI := "a", Digest := [("sha256", "x")] }] ∧
      ({ Name := "", URI := "b", Digest := [("sha256", "y")] } : ResourceDescriptor) ∈
        removeDuplicateResolvedDependencies
          [{ Name := "", URI := "a", Digest := [("sha256", "x")] },
           { Name := "", URI := "b", Digest := [("sha256", "y")] },
           { Name := "", URI := "a", Digest := [("sha256", "x")] }] :=
  dedup_order_preserving_first_occurrence _
    [{ Name := "", URI := "a", Digest := [("sha256", "x")] }]
    [{ Name := "", URI := "a", Digest := [("sha256", "x")] }]
    { Name := "", URI := "b", Digest := [("sha256", "y")] }
    rfl (by decide)

/-- Claim C5: deduplication is idempotent — running
`removeDuplicateResolvedDependencies` on its own output returns that
output unchanged. -/
theorem dedup_idempotent (rds : List ResourceDescriptor) :
    removeDuplicateResolvedDependencies (removeDuplicateResolvedDependencies rds) =
      removeDuplicateResolvedDependencies rds := by
  unfold removeDuplicateResolvedDependencies
  apply removeDuplicateLoop_eq_self
  · intro rd _ hmem; simp at hmem
  · exact removeDuplicateLoop_pairwise rds []

/-- Claim C6: the Single-Execution Resolver on the spec's example input
returns, in order, the `"task"`-named reference descriptor, the untagged
step-image descriptor, and the `"inputs/result"`-named input
descriptor. -/
theorem taskRun_example :
    TaskRun (some ⟨"git.example/repo", [("sha1", "abc")]⟩)
      ([⟨"reg/img", [("sha256", "d1")]⟩], none) ([], none)
      [⟨"param/foo", [("sha256", "d2")]⟩] [] =
    ([{ Name := "task", URI := "git.example/repo", Digest := [("sha1", "abc")] },
      { Name := "", URI := "reg/img", Digest := [("sha256", "d1")] },
      { Name := "inputs/result", URI := "param/foo", Digest := [("sha256", "d2")] }],
      none) := by
  decide

/-- Claim C7: when a step or sidecar image-material extraction fails,
`TaskRun` returns the underlying error unchanged with a nil list;
likewise any extraction error surfaced by the pipeline-task loop makes
`PipelineRun` return that error unchanged with a nil list, the loop
itself never pairs an error with a partial list, every surfaced loop
error is the unchanged extraction error of one of the looked-up,
completed sub-executions, and a failing completed sub-execution always
aborts the loop with an error. -/
theorem resolver_error_propagation :
    (∀ (refSource : Option RefSource) (stepMats : List ProvenanceMaterial)
        (sidecarResult : List ProvenanceMaterial × Option String)
        (paramMats resourceMats : List ProvenanceMaterial) (e : String),
      TaskRun refSource (stepMats, some e) sidecarResult paramMats resourceMats =
        ([], some e)) ∧
    (∀ (refSource : Option RefSource) (stepMats sidecarMats : List ProvenanceMaterial)
        (paramMats resourceMats : List ProvenanceMaterial) (e : String),
      TaskRun refSource (stepMats, none) (sidecarMats, some e) paramMats resourceMats =
        ([], some e)) ∧
    (∀ (getTaskRun : String → Option SubTaskRunStatus) (names : List String) (e : String),
      (fromPipelineTaskLoop getTaskRun names).2 = some e →
        fromPipelineTaskLoop getTaskRun names = ([], some e)) ∧
    (∀ (refSource : Option RefSource) (getTaskRun : String → Option SubTaskRunStatus)
        (pSpec : Option PipelineSpec) (paramMats : List ProvenanceMaterial) (e : String),
      (fromPipelineTask getTaskRun pSpec).2 = some e →
        PipelineRun refSource getTaskRun pSpec paramMats = ([], some e)) ∧
    (∀ (getTaskRun : String → Option SubTaskRunStatus) (names : List String) (e : String),
      (fromPipelineTaskLoop getTaskRun names).2 = some e →
        ∃ t ∈ names, ∃ tr, getTaskRun t = some tr ∧ tr.completionTime.isSome ∧
          extractionError tr = some e) ∧
    (∀ (getTaskRun : String → Option SubTaskRunStatus) (names : List String)
        (t : String) (tr : SubTaskRunStatus),
      t ∈ names → getTaskRun t = some tr → tr.completionTime.isSome →
        (extractionError tr).isSome → (fromPipelineTaskLoop getTaskRun names).2.isSome) := by
  refine ⟨fun _ _ _ _ _ _ => rfl, fun _ _ _ _ _ _ => rfl,
    fromPipelineTaskLoop_error_nil, ?_,
    fromPipelineTaskLoop_error_source, fromPipelineTaskLoop_error_of_failure⟩
  intro refSource getTaskRun pSpec paramMats e h
  unfold PipelineRun
  rcases hfp : fromPipelineTask getTaskRun pSpec with ⟨rds, perr⟩
  rw [hfp] at h
  simp only [] at h
  rw [h]

/-- Witness for C7: a pipeline with one completed stage whose step-image
extraction fails makes `PipelineRun` surface exactly that error with an
empty list. -/
theorem resolver_error_propagation_witness :
    PipelineRun none
        (fun _ => some ⟨some 1, none, ([], some "boom"), ([], none)⟩)
        (some ⟨["stage"], []⟩) [] =
      ([], some "boom") :=
  resolver_error_propagation.2.2.2.1 none
    (fun _ => some ⟨some 1, none, ([], some "boom"), ([], none)⟩)
    (some ⟨["stage"], []⟩) [] "boom" rfl

/-- Claim C8: a declared stage whose sub-execution lookup returns
nothing, or whose sub-execution has no completion time, contributes no
descriptors and no error — the loop result is that of the remaining
stages. -/
theorem skipped_stage_contributes_nothing
    (getTaskRun : String → Option SubTaskRunStatus) (t : String) (rest : List String)
    (h : getTaskRun t = none ∨ ∃ tr, getTaskRun t = some tr ∧ tr.completionTime = none) :
    fromPipelineTaskLoop getTaskRun (t :: rest) = fromPipelineTaskLoop getTaskRun rest := by
  rcases h with h | ⟨tr, hg, hct⟩
  · simp only [fromPipelineTaskLoop, h]
  · simp only [fromPipelineTaskLoop, hg, hct]

/-- Witness for C8: a stage with no sub-execution is skipped. -/
theorem skipped_stage_contributes_nothing_witness :
    fromPipelineTaskLoop (fun _ => none) ["stage"] =
      fromPipelineTaskLoop (fun _ => none) [] :=
  skipped_stage_contributes_nothing (fun _ => none) "stage" [] (Or.inl rfl)

/-- Claim C9: two descriptors with the same URI whose digest mappings
hold the same entries in different insertion order get the same identity
key (the serialization orders keys stably), so the deduplicator treats
them as duplicates of each other. -/
theorem digest_order_insensitive (a b : ResourceDescriptor)
    (huri : a.URI = b.URI) (hperm : a.Digest.Perm b.Digest)
    (hnd : (a.Digest.map Prod.fst).Nodup) :
    identityKey a = identityKey b ∧
      (¬ ProtectedName b → removeDuplicateResolvedDependencies [a, b] = [a]) := by
  have s1 : List.Sorted digestLe (sortDigest a.Digest) :=
    List.sorted_insertionSort digestLe _
  have s2 : List.Sorted digestLe (sortDigest b.Digest) :=
    List.sorted_insertionSort digestLe _
  have p1 : (sortDigest a.Digest).Perm a.Digest := List.perm_insertionSort digestLe _
  have p2 : (sortDigest b.Digest).Perm b.Digest := List.perm_insertionSort digestLe _
  have pp : (sortDigest a.Digest).Perm (sortDigest b.Digest) :=
    p1.trans (hperm.trans p2.symm)
  have nd1 : ((sortDigest a.Digest).map Prod.fst).Nodup :=
    ((p1.map Prod.fst).nodup_iff).mpr hnd
  have nd2 : ((sortDigest b.Digest).map Prod.fst).Nodup :=
    ((pp.map Prod.fst).nodup_iff).mp nd1
  have strict : ∀ l : DigestSet, List.Sorted digestLe l → (l.map Prod.fst).Nodup →
      List.Pairwise (fun p q : String × String => p.1 < q.1) l := by
    intro l hs hn
    have hn' := List.pairwise_map.mp hn
    exact (List.Pairwise.and hs hn').imp (fun h => lt_of_le_of_ne h.1 h.2)
  haveI : IsAntisymm (String × String) (fun p q => p.1 < q.1) :=
    ⟨fun p q h h' => absurd (lt_trans h h') (lt_irrefl _)⟩
  have hsort : sortDigest a.Digest = sortDigest b.Digest :=
    List.eq_of_perm_of_sorted pp (strict _ s1 nd1) (strict _ s2 nd2)
  have hkey : identityKey a = identityKey b := by
    unfold identityKey
    rw [huri, hsort]
  refine ⟨hkey, fun hb => ?_⟩
  have h1 : ¬ (identityKey a ∈ ([] : List (String × DigestSet)) ∧ ¬ ProtectedName a) := by
    simp
  have h2 : identityKey b ∈ [identityKey a] := by
    rw [← hkey]; exact List.mem_cons_self _ _
  unfold removeDuplicateResolvedDependencies
  rw [removeDuplicateLoop_cons, if_neg h1, removeDuplicateLoop_cons, if_pos ⟨h2, hb⟩]
  rfl

/-- Witness for C9: the same two digest entries in swapped insertion
order give equal identity keys and the later descriptor is removed as a
duplicate. -/
theorem digest_order_insensitive_witness :
    identityKey { Name := "", URI := "u", Digest := [("sha1", "x"), ("sha256", "y")] } =
        identityKey { Name := "", URI := "u", Digest := [("sha256", "y"), ("sha1", "x")] } ∧
      removeDuplicateResolvedDependencies
        [{ Name := "", URI := "u", Digest := [("sha1", "x"), ("sha256", "y")] },
         { Name := "", URI := "u", Digest := [("sha256", "y"), ("sha1", "x")] }] =
        [{ Name := "", URI := "u", Digest := [("sha1", "x"), ("sha256", "y")] }] :=
  have h := digest_order_insensitive
    { Name := "", URI := "u", Digest := [("sha1", "x"), ("sha256", "y")] }
    { Name := "", URI := "u", Digest := [("sha256", "y"), ("sha1", "x")] }
    rfl (by decide) (by decide)
  ⟨h.1, h.2 (by decide)⟩

/-- Claim C10: with no pipeline spec in the status, `PipelineRun`
succeeds and returns the deduplicated concatenation of the top-level
`"pipeline"` descriptor (when a ref source is present) and the
`"inputs/result"`-tagged input descriptors; no stage lookup is ever
consulted. -/
theorem pipelineRun_no_spec (refSource : Option RefSource)
    (getTaskRun getTaskRun' : String → Option SubTaskRunStatus)
    (paramMats : List ProvenanceMaterial) :
    PipelineRun refSource getTaskRun none paramMats =
      (removeDuplicateResolvedDependencies
        (pipelineTopDescriptor refSource ++
          convertMaterialsToResolvedDependencies paramMats inputResultName), none) ∧
    PipelineRun refSource getTaskRun none paramMats =
      PipelineRun refSource getTaskRun' none paramMats := by
  constructor
  · simp [PipelineRun, fromPipelineTask]
  · rfl
